import Mathlib

/-!
Verification development for the `sage_mqtt` MQTT 5.0 codec core.

The Rust source under `src/` is shallowly embedded here:

* a byte source (`std::io::Read`, possibly wrapped in `Take`) becomes the
  structure `Rd`, carrying the remaining bytes together with the remaining
  read budget (the `Take` limit); every read fails with `Error.ioError`
  once either is exhausted, mirroring `read_exact`'s `UnexpectedEof`;
* a byte sink (`Vec<u8>` / `std::io::Write`) becomes a returned byte list,
  and each `write` returns the byte count exactly as the Rust code
  computes it;
* fallible Rust functions returning `SageResult<T>` become
  `Except Error T`.

Primitive codecs (`VariableByteInteger`, `UTF8String`, `BinaryData`,
two/four byte integers, booleans), `PropertyId`, `ReasonCode` with its
per-packet legality table, the `DEFAULT_*` constants and
`Authentication::encode` are used by the supplied sources but their own
definitions are not part of the supplied material; they are modelled from
the specification (each carries a doc comment saying so).  Everything
else is translated directly from the Rust sources
(`control_packets/property.rs`, `puback.rs`, `auth.rs`, `publish.rs`,
`suback.rs`).

Rust `String` values are represented by their UTF-8 byte sequences
(`List Nat`); the codec only ever measures and copies those bytes.
-/

namespace SageMqtt

/-- The three failure kinds of the codec (spec §7): protocol violation,
the distinguished malformed-value failure, and stream failure. -/
inductive Error where
  | protocolError
  | malformedPacket
  | ioError
deriving DecidableEq, Repr

instance {ε α : Type} [DecidableEq ε] [DecidableEq α] :
    DecidableEq (Except ε α) := fun x y =>
  match x, y with
  | .ok a, .ok b =>
    if h : a = b then isTrue (by rw [h])
    else isFalse (by simp [h])
  | .error a, .error b =>
    if h : a = b then isTrue (by rw [h])
    else isFalse (by simp [h])
  | .ok _, .error _ => isFalse (by simp)
  | .error _, .ok _ => isFalse (by simp)

/-- A byte source: remaining bytes of the underlying stream together
with the remaining `Take` limit.  A top-level reader over a buffer `d`
is `⟨d, d.length⟩`. -/
structure Rd where
  data : List Nat
  limit : Nat
deriving DecidableEq, Repr

/-- A computation that consumes bytes from a reader (`&mut R` in the
Rust sources): state passing over `Rd`. -/
def ReadM (α : Type) : Type :=
  Rd → Except Error (α × Rd)

instance : Monad ReadM where
  pure a := fun r => .ok (a, r)
  bind m f := fun r =>
    match m r with
    | .ok (a, r') => f a r'
    | .error e => .error e

/-- Abort the current read with the given failure. -/
def ReadM.fail (e : Error) : ReadM α :=
  fun _ => .error e

/-- Read one byte (`u8::read_byte` / `read_exact` of a 1-byte buffer):
fails with a stream error when the limit or the data is exhausted. -/
def readByte : ReadM Nat :=
  fun r =>
    match r.limit, r.data with
    | 0, _ => .error .ioError
    | _ + 1, [] => .error .ioError
    | l + 1, b :: d => .ok (b, ⟨d, l⟩)

/-- Read exactly `n` bytes (`read_exact`): succeeds iff both the limit
and the available data cover `n` bytes. -/
def readExact (n : Nat) : ReadM (List Nat) :=
  fun r =>
    if n ≤ r.limit ∧ n ≤ r.data.length then
      .ok (r.data.take n, ⟨r.data.drop n, r.limit - n⟩)
    else .error .ioError

/-- Modelled from the spec: `read_two_byte_integer`, a 2-byte big-endian
unsigned integer (§4.1); the definition itself is not in the supplied
sources. -/
def readU16 : ReadM Nat := do
  let b1 ← readByte
  let b0 ← readByte
  pure (b1 * 256 + b0)

/-- Modelled from the spec: `read_four_byte_integer`, a 4-byte
big-endian unsigned integer (§4.1). -/
def readU32 : ReadM Nat := do
  let b3 ← readByte
  let b2 ← readByte
  let b1 ← readByte
  let b0 ← readByte
  pure (((b3 * 256 + b2) * 256 + b1) * 256 + b0)

/-- Modelled from the spec: `bool::read_byte` — a single byte restricted
to {0,1}; any other byte is a protocol violation (§4.1, and the async
twin `codec/byte.rs`). -/
def readBool : ReadM Bool := do
  let b ← readByte
  match b with
  | 0 => pure false
  | 1 => pure true
  | _ => ReadM.fail .protocolError

/-- Modelled from the spec: `VariableByteInteger::decode` — 7 payload
bits per byte, top bit a continuation flag, at most 4 bytes; a set
continuation flag on the 4th byte is a failure (§3). -/
def vbiDecode : ReadM Nat := do
  let b0 ← readByte
  if b0 < 128 then pure b0 else do
  let b1 ← readByte
  if b1 < 128 then pure (b0 % 128 + 128 * b1) else do
  let b2 ← readByte
  if b2 < 128 then pure (b0 % 128 + 128 * (b1 % 128) + 16384 * b2) else do
  let b3 ← readByte
  if b3 < 128 then
    pure (b0 % 128 + 128 * (b1 % 128) + 16384 * (b2 % 128) + 2097152 * b3)
  else ReadM.fail .protocolError

/-- Modelled from the spec: `UTF8String::decode` / `BinaryData::decode`
— a 2-byte big-endian length prefix followed by that many bytes (§3).
The UTF-8 well-formedness check is not modelled; the value is kept as
its byte sequence. -/
def readChunk : ReadM (List Nat) := do
  let n ← readU16
  readExact n

/-- The two bytes of a 2-byte big-endian integer. -/
def u16bytes (v : Nat) : List Nat :=
  [v / 256 % 256, v % 256]

/-- The four bytes of a 4-byte big-endian integer. -/
def u32bytes (v : Nat) : List Nat :=
  [v / 16777216 % 256, v / 65536 % 256, v / 256 % 256, v % 256]

/-- Modelled from the spec: `VariableByteInteger::encode` — minimal
continuation-bit form, failing beyond the 28-bit range (§3, §4.1). -/
def vbiEncode (v : Nat) : Except Error (List Nat) :=
  if v < 128 then .ok [v]
  else if v < 16384 then .ok [v % 128 + 128, v / 128]
  else if v < 2097152 then .ok [v % 128 + 128, v / 128 % 128 + 128, v / 16384]
  else if v < 268435456 then
    .ok [v % 128 + 128, v / 128 % 128 + 128, v / 16384 % 128 + 128, v / 2097152]
  else .error .malformedPacket

/-- Modelled from the spec: `UTF8String::encode` / `BinaryData::encode`
— 2-byte big-endian length prefix then the bytes; a value longer than
65535 bytes cannot be represented (§3). -/
def chunkEncode (s : List Nat) : Except Error (List Nat) :=
  if s.length < 65536 then .ok (u16bytes s.length ++ s)
  else .error .malformedPacket

/-- Single byte of a boolean (`bool::write_byte`): 1 for true, 0 for
false. -/
def boolByte (b : Bool) : Nat :=
  if b then 1 else 0

/-- Quality-of-service level, wire values 0, 1, 2. -/
inductive QoS where
  | atMostOnce
  | atLeastOnce
  | exactlyOnce
deriving DecidableEq, Repr

/-- Wire byte of a quality-of-service level. -/
def QoS.toByte : QoS → Nat
  | .atMostOnce => 0
  | .atLeastOnce => 1
  | .exactlyOnce => 2

/-- Modelled from the spec: `QoS::decode` — one byte in {0,1,2}, any
other value a protocol violation. -/
def QoS.decodeQoS : ReadM QoS := do
  let b ← readByte
  match b with
  | 0 => pure QoS.atMostOnce
  | 1 => pure QoS.atLeastOnce
  | 2 => pure QoS.exactlyOnce
  | _ => ReadM.fail .protocolError

/-- The property-id space (`PropertyId`), one tag per property kind. -/
inductive PropertyId where
  | payloadFormatIndicator
  | messageExpiryInterval
  | contentType
  | responseTopic
  | correlationData
  | subscriptionIdentifier
  | sessionExpiryInterval
  | assignedClientIdentifier
  | serverKeepAlive
  | authenticationMethod
  | authenticationData
  | requestProblemInformation
  | willDelayInterval
  | requestResponseInformation
  | responseInformation
  | serverReference
  | reasonString
  | receiveMaximum
  | topicAliasMaximum
  | topicAlias
  | maximumQoS
  | retainAvailable
  | userProperty
  | maximumPacketSize
  | wildcardSubscriptionAvailable
  | subscriptionIdentifierAvailable
  | sharedSubscriptionAvailable
deriving DecidableEq, Repr

/-- Modelled from the spec: the numeric property-id of each property
kind (§6; the ids visible in the supplied test vectors — 1, 2, 3, 8, 9,
11, 21, 22, 31, 35, 38 — agree with this table). -/
def PropertyId.toNat : PropertyId → Nat
  | .payloadFormatIndicator => 1
  | .messageExpiryInterval => 2
  | .contentType => 3
  | .responseTopic => 8
  | .correlationData => 9
  | .subscriptionIdentifier => 11
  | .sessionExpiryInterval => 17
  | .assignedClientIdentifier => 18
  | .serverKeepAlive => 19
  | .authenticationMethod => 21
  | .authenticationData => 22
  | .requestProblemInformation => 23
  | .willDelayInterval => 24
  | .requestResponseInformation => 25
  | .responseInformation => 26
  | .serverReference => 28
  | .reasonString => 31
  | .receiveMaximum => 33
  | .topicAliasMaximum => 34
  | .topicAlias => 35
  | .maximumQoS => 36
  | .retainAvailable => 37
  | .userProperty => 38
  | .maximumPacketSize => 39
  | .wildcardSubscriptionAvailable => 40
  | .subscriptionIdentifierAvailable => 41
  | .sharedSubscriptionAvailable => 42

/-- Partial inverse of `PropertyId.toNat`. -/
def PropertyId.fromNat (n : Nat) : Option PropertyId :=
  match n with
  | 1 => some .payloadFormatIndicator
  | 2 => some .messageExpiryInterval
  | 3 => some .contentType
  | 8 => some .responseTopic
  | 9 => some .correlationData
  | 11 => some .subscriptionIdentifier
  | 17 => some .sessionExpiryInterval
  | 18 => some .assignedClientIdentifier
  | 19 => some .serverKeepAlive
  | 21 => some .authenticationMethod
  | 22 => some .authenticationData
  | 23 => some .requestProblemInformation
  | 24 => some .willDelayInterval
  | 25 => some .requestResponseInformation
  | 26 => some .responseInformation
  | 28 => some .serverReference
  | 31 => some .reasonString
  | 33 => some .receiveMaximum
  | 34 => some .topicAliasMaximum
  | 35 => some .topicAlias
  | 36 => some .maximumQoS
  | 37 => some .retainAvailable
  | 38 => some .userProperty
  | 39 => some .maximumPacketSize
  | 40 => some .wildcardSubscriptionAvailable
  | 41 => some .subscriptionIdentifierAvailable
  | 42 => some .sharedSubscriptionAvailable
  | _ => none

/-- Modelled from the spec: `PropertyId::decode` — a variable-length
integer id, mapped through the id table; an id outside the table is a
protocol violation. -/
def PropertyId.decodeId : ReadM PropertyId := do
  let n ← vbiDecode
  match PropertyId.fromNat n with
  | some id => pure id
  | none => ReadM.fail .protocolError

/-- Modelled from the spec: `PropertyId::encode` — the id as a
variable-length integer (all ids are below 128, hence one byte). -/
def PropertyId.encodeId (id : PropertyId) : Except Error (List Nat) :=
  vbiEncode id.toNat

/-- The packet kinds this development needs to name. -/
inductive ControlPacketType where
  | AUTH
  | PUBACK
  | PUBLISH
  | SUBACK
deriving DecidableEq, Repr

/-- Reason codes appearing in the legality tables of the exemplar
packets. -/
inductive ReasonCode where
  | success
  | grantedQoS1
  | grantedQoS2
  | noMatchingSubscribers
  | continueAuthentication
  | reAuthenticate
  | unspecifiedError
  | implementationSpecificError
  | notAuthorized
  | topicFilterInvalid
  | topicNameInvalid
  | packetIdentifierInUse
  | quotaExceeded
  | payloadFormatInvalid
  | sharedSubscriptionsNotSupported
  | subscriptionIdentifiersNotSupported
  | wildcardSubscriptionsNotSupported
deriving DecidableEq, Repr

/-- Single wire byte of each reason code (spec §4.3: one byte per code).
The values 0, 24 and 151 are pinned by the supplied test vectors. -/
def ReasonCode.toByte : ReasonCode → Nat
  | .success => 0
  | .grantedQoS1 => 1
  | .grantedQoS2 => 2
  | .noMatchingSubscribers => 16
  | .continueAuthentication => 24
  | .reAuthenticate => 25
  | .unspecifiedError => 128
  | .implementationSpecificError => 131
  | .notAuthorized => 135
  | .topicFilterInvalid => 143
  | .topicNameInvalid => 144
  | .packetIdentifierInUse => 145
  | .quotaExceeded => 151
  | .payloadFormatInvalid => 153
  | .sharedSubscriptionsNotSupported => 158
  | .subscriptionIdentifiersNotSupported => 161
  | .wildcardSubscriptionsNotSupported => 162

/-- Modelled from the spec: the (packet kind, code) legality table
(§4.3, §2: e.g. re-authenticate is legal only in the authentication
exchange). -/
def ReasonCode.legalFor (c : ReasonCode) (t : ControlPacketType) : Bool :=
  match t with
  | .AUTH =>
    match c with
    | .success | .continueAuthentication | .reAuthenticate => true
    | _ => false
  | .PUBACK =>
    match c with
    | .success | .noMatchingSubscribers | .unspecifiedError
    | .implementationSpecificError | .notAuthorized | .topicNameInvalid
    | .packetIdentifierInUse | .quotaExceeded | .payloadFormatInvalid => true
    | _ => false
  | .SUBACK =>
    match c with
    | .success | .grantedQoS1 | .grantedQoS2 | .unspecifiedError
    | .implementationSpecificError | .notAuthorized | .topicFilterInvalid
    | .packetIdentifierInUse | .quotaExceeded
    | .sharedSubscriptionsNotSupported | .subscriptionIdentifiersNotSupported
    | .wildcardSubscriptionsNotSupported => true
    | _ => false
  | .PUBLISH =>
    match c with
    | .success => true
    | _ => false

/-- Partial inverse of `ReasonCode.toByte`. -/
def ReasonCode.ofByte (n : Nat) : Option ReasonCode :=
  match n with
  | 0 => some .success
  | 1 => some .grantedQoS1
  | 2 => some .grantedQoS2
  | 16 => some .noMatchingSubscribers
  | 24 => some .continueAuthentication
  | 25 => some .reAuthenticate
  | 128 => some .unspecifiedError
  | 131 => some .implementationSpecificError
  | 135 => some .notAuthorized
  | 143 => some .topicFilterInvalid
  | 144 => some .topicNameInvalid
  | 145 => some .packetIdentifierInUse
  | 151 => some .quotaExceeded
  | 153 => some .payloadFormatInvalid
  | 158 => some .sharedSubscriptionsNotSupported
  | 161 => some .subscriptionIdentifiersNotSupported
  | 162 => some .wildcardSubscriptionsNotSupported
  | _ => none

/-- Modelled from the spec: `ReasonCode::try_parse` — a pure mapping
from (raw byte, owning packet kind) to a validated code, failing when
the byte is not a legal code for that packet kind (§4.3, §7). -/
def ReasonCode.tryParse (n : Nat) (t : ControlPacketType) :
    Except Error ReasonCode :=
  match ReasonCode.ofByte n with
  | some c => if c.legalFor t then .ok c else .error .protocolError
  | none => .error .protocolError

/-- Modelled from the spec: default payload-format-indicator (§3). -/
def DEFAULT_PAYLOAD_FORMAT_INDICATOR : Bool := false

/-- Modelled from the spec: default session-expiry-interval. -/
def DEFAULT_SESSION_EXPIRY_INTERVAL : Nat := 0

/-- Modelled from the spec: default request-problem-information. -/
def DEFAULT_REQUEST_PROBLEM_INFORMATION : Bool := true

/-- Modelled from the spec: default will-delay-interval. -/
def DEFAULT_WILL_DELAY_INTERVAL : Nat := 0

/-- Modelled from the spec: default request-response-information. -/
def DEFAULT_REQUEST_RESPONSE_INFORMATION : Bool := false

/-- Modelled from the spec: default receive-maximum (§3). -/
def DEFAULT_RECEIVE_MAXIMUM : Nat := 65535

/-- Modelled from the spec: default topic-alias-maximum. -/
def DEFAULT_TOPIC_ALIAS_MAXIMUM : Nat := 0

/-- Modelled from the spec: default maximum quality of service. -/
def DEFAULT_MAXIMUM_QOS : QoS := QoS.exactlyOnce

/-- Modelled from the spec: default retain-available (§3). -/
def DEFAULT_RETAIN_AVAILABLE : Bool := true

/-- Modelled from the spec: default wildcard-subscription-available. -/
def DEFAULT_WILCARD_SUBSCRIPTION_AVAILABLE : Bool := true

/-- Modelled from the spec: default shared-subscription-available. -/
def DEFAULT_SHARED_SUBSCRIPTION_AVAILABLE : Bool := true

/-- The `Property` tagged union (`control_packets/property.rs`).  Text
and binary payloads are byte sequences, 16/32-bit integers are `Nat`. -/
inductive Property where
  | payloadFormatIndicator (v : Bool)
  | messageExpiryInterval (v : Nat)
  | contentType (v : List Nat)
  | responseTopic (v : List Nat)
  | correlationData (v : List Nat)
  | subscriptionIdentifier (v : Nat)
  | sessionExpiryInterval (v : Nat)
  | assignedClientIdentifier (v : List Nat)
  | serverKeepAlive (v : Nat)
  | authenticationMethod (v : List Nat)
  | authenticationData (v : List Nat)
  | requestProblemInformation (v : Bool)
  | willDelayInterval (v : Nat)
  | requestResponseInformation (v : Bool)
  | responseInformation (v : List Nat)
  | serverReference (v : List Nat)
  | reasonString (v : List Nat)
  | receiveMaximum (v : Nat)
  | topicAliasMaximum (v : Nat)
  | topicAlias (v : Nat)
  | maximumQoS (v : QoS)
  | retainAvailable (v : Bool)
  | userProperty (k : List Nat) (v : List Nat)
  | maximumPacketSize (v : Nat)
  | wildcardSubscriptionAvailable (v : Bool)
  | subscriptionIdentifierAvailable (v : Bool)
  | sharedSubscriptionAvailable (v : Bool)
deriving DecidableEq, Repr

/-- `Property::encode` (`property.rs`): either write id + payload, or —
for a property sitting at its default value — write nothing and report
zero bytes.  `ReceiveMaximum(0)` is the distinguished malformed-value
failure; `SubscriptionIdentifier(0)` is a general protocol violation. -/
def Property.encode : Property → Except Error (Nat × List Nat)
  | .payloadFormatIndicator v =>
    if v ≠ DEFAULT_PAYLOAD_FORMAT_INDICATOR then do
      let idB ← PropertyId.payloadFormatIndicator.encodeId
      .ok (idB.length + 1, idB ++ [boolByte v])
    else .ok (0, [])
  | .messageExpiryInterval v => do
    let idB ← PropertyId.messageExpiryInterval.encodeId
    .ok (idB.length + 4, idB ++ u32bytes v)
  | .contentType v => do
    let idB ← PropertyId.contentType.encodeId
    let s ← chunkEncode v
    .ok (idB.length + s.length, idB ++ s)
  | .responseTopic v => do
    let idB ← PropertyId.responseTopic.encodeId
    let s ← chunkEncode v
    .ok (idB.length + s.length, idB ++ s)
  | .correlationData v => do
    let idB ← PropertyId.correlationData.encodeId
    let s ← chunkEncode v
    .ok (idB.length + s.length, idB ++ s)
  | .subscriptionIdentifier v =>
    if v = 0 then .error .protocolError
    else do
      let idB ← PropertyId.subscriptionIdentifier.encodeId
      let s ← vbiEncode v
      .ok (idB.length + s.length, idB ++ s)
  | .sessionExpiryInterval v =>
    if v ≠ DEFAULT_SESSION_EXPIRY_INTERVAL then do
      let idB ← PropertyId.sessionExpiryInterval.encodeId
      .ok (idB.length + 4, idB ++ u32bytes v)
    else .ok (0, [])
  | .assignedClientIdentifier v => do
    let idB ← PropertyId.assignedClientIdentifier.encodeId
    let s ← chunkEncode v
    .ok (idB.length + s.length, idB ++ s)
  | .serverKeepAlive v => do
    let idB ← PropertyId.serverKeepAlive.encodeId
    .ok (idB.length + 2, idB ++ u16bytes v)
  | .authenticationMethod v => do
    let idB ← PropertyId.authenticationMethod.encodeId
    let s ← chunkEncode v
    .ok (idB.length + s.length, idB ++ s)
  | .authenticationData v => do
    let idB ← PropertyId.authenticationData.encodeId
    let s ← chunkEncode v
    .ok (idB.length + s.length, idB ++ s)
  | .requestProblemInformation v =>
    if v ≠ DEFAULT_REQUEST_PROBLEM_INFORMATION then do
      let idB ← PropertyId.requestProblemInformation.encodeId
      .ok (idB.length + 1, idB ++ [boolByte v])
    else .ok (0, [])
  | .willDelayInterval v =>
    if v ≠ DEFAULT_WILL_DELAY_INTERVAL then do
      let idB ← PropertyId.willDelayInterval.encodeId
      .ok (idB.length + 4, idB ++ u32bytes v)
    else .ok (0, [])
  | .requestResponseInformation v =>
    if v ≠ DEFAULT_REQUEST_RESPONSE_INFORMATION then do
      let idB ← PropertyId.requestResponseInformation.encodeId
      .ok (idB.length + 1, idB ++ [boolByte v])
    else .ok (0, [])
  | .responseInformation v => do
    let idB ← PropertyId.responseInformation.encodeId
    let s ← chunkEncode v
    .ok (idB.length + s.length, idB ++ s)
  | .serverReference v => do
    let idB ← PropertyId.serverReference.encodeId
    let s ← chunkEncode v
    .ok (idB.length + s.length, idB ++ s)
  | .reasonString v => do
    let idB ← PropertyId.reasonString.encodeId
    let s ← chunkEncode v
    .ok (idB.length + s.length, idB ++ s)
  | .receiveMaximum v =>
    if v = 0 then .error .malformedPacket
    else if v = DEFAULT_RECEIVE_MAXIMUM then .ok (0, [])
    else do
      let idB ← PropertyId.receiveMaximum.encodeId
      .ok (idB.length + 2, idB ++ u16bytes v)
  | .topicAliasMaximum v =>
    if v ≠ DEFAULT_TOPIC_ALIAS_MAXIMUM then do
      let idB ← PropertyId.topicAliasMaximum.encodeId
      .ok (idB.length + 2, idB ++ u16bytes v)
    else .ok (0, [])
  | .topicAlias v => do
    let idB ← PropertyId.topicAlias.encodeId
    .ok (idB.length + 2, idB ++ u16bytes v)
  | .maximumQoS v =>
    if v ≠ DEFAULT_MAXIMUM_QOS then do
      let idB ← PropertyId.maximumQoS.encodeId
      .ok (idB.length + 1, idB ++ [v.toByte])
    else .ok (0, [])
  | .retainAvailable v =>
    if v ≠ DEFAULT_RETAIN_AVAILABLE then do
      let idB ← PropertyId.retainAvailable.encodeId
      .ok (idB.length + 1, idB ++ [boolByte v])
    else .ok (0, [])
  | .userProperty k v => do
    let idB ← PropertyId.userProperty.encodeId
    let sk ← chunkEncode k
    let sv ← chunkEncode v
    .ok (idB.length + sk.length + sv.length, idB ++ sk ++ sv)
  | .maximumPacketSize v => do
    let idB ← PropertyId.maximumPacketSize.encodeId
    .ok (idB.length + 4, idB ++ u32bytes v)
  | .wildcardSubscriptionAvailable v =>
    if v ≠ DEFAULT_WILCARD_SUBSCRIPTION_AVAILABLE then do
      let idB ← PropertyId.wildcardSubscriptionAvailable.encodeId
      .ok (idB.length + 1, idB ++ [boolByte v])
    else .ok (0, [])
  | .subscriptionIdentifierAvailable v => do
    let idB ← PropertyId.subscriptionIdentifierAvailable.encodeId
    .ok (idB.length + 1, idB ++ [boolByte v])
  | .sharedSubscriptionAvailable v =>
    if v ≠ DEFAULT_SHARED_SUBSCRIPTION_AVAILABLE then do
      let idB ← PropertyId.sharedSubscriptionAvailable.encodeId
      .ok (idB.length + 1, idB ++ [boolByte v])
    else .ok (0, [])

/-- `PropertiesDecoder` (`property.rs`): a cursor bounded to the
declared properties-region length (the `Take`), plus the set of already
seen non-repeatable property ids. -/
structure PropertiesDecoder where
  rd : Rd
  marked : List PropertyId
deriving DecidableEq, Repr

/-- `PropertiesDecoder::take`: read the region's byte count as a
variable-length integer, then bound a fresh cursor to exactly that many
following bytes; the second component is the underlying reader as it
stands once the region has been fully drained. -/
def PropertiesDecoder.take (r : Rd) :
    Except Error (PropertiesDecoder × Rd) := do
  let (len, r') ← vbiDecode r
  .ok (⟨⟨r'.data.take (min len r'.limit), len⟩, []⟩,
       ⟨r'.data.drop len, r'.limit - len⟩)

/-- `PropertiesDecoder::has_properties`: unread bytes remain in the
bound region (`self.reader.limit() > 0`). -/
def PropertiesDecoder.hasProperties (d : PropertiesDecoder) : Bool :=
  decide (0 < d.rd.limit)

/-- `PropertiesDecoder::read_property_value` (`property.rs`): dispatch
on the property id to the payload decoder for that kind.
`ReceiveMaximum` of 0 is the distinguished malformed-value failure;
`SubscriptionIdentifier` of 0 is a general protocol violation. -/
def readPropertyValue (id : PropertyId) : ReadM Property :=
  match id with
  | .payloadFormatIndicator => do
    let b ← readByte
    match b with
    | 0 => pure (.payloadFormatIndicator false)
    | 1 => pure (.payloadFormatIndicator true)
    | _ => ReadM.fail .protocolError
  | .messageExpiryInterval => do
    let v ← readU32
    pure (.messageExpiryInterval v)
  | .contentType => do
    let v ← readChunk
    pure (.contentType v)
  | .responseTopic => do
    let v ← readChunk
    pure (.responseTopic v)
  | .correlationData => do
    let v ← readChunk
    pure (.correlationData v)
  | .subscriptionIdentifier => do
    let v ← vbiDecode
    if v = 0 then ReadM.fail .protocolError
    else pure (.subscriptionIdentifier v)
  | .sessionExpiryInterval => do
    let v ← readU32
    pure (.sessionExpiryInterval v)
  | .assignedClientIdentifier => do
    let v ← readChunk
    pure (.assignedClientIdentifier v)
  | .serverKeepAlive => do
    let v ← readU16
    pure (.serverKeepAlive v)
  | .authenticationMethod => do
    let v ← readChunk
    pure (.authenticationMethod v)
  | .authenticationData => do
    let v ← readChunk
    pure (.authenticationData v)
  | .requestProblemInformation => do
    let b ← readByte
    match b with
    | 0 => pure (.requestProblemInformation false)
    | 1 => pure (.requestProblemInformation true)
    | _ => ReadM.fail .protocolError
  | .willDelayInterval => do
    let v ← readU32
    pure (.willDelayInterval v)
  | .requestResponseInformation => do
    let b ← readByte
    match b with
    | 0 => pure (.requestResponseInformation false)
    | 1 => pure (.requestResponseInformation true)
    | _ => ReadM.fail .protocolError
  | .responseInformation => do
    let v ← readChunk
    pure (.responseInformation v)
  | .serverReference => do
    let v ← readChunk
    pure (.serverReference v)
  | .reasonString => do
    let v ← readChunk
    pure (.reasonString v)
  | .receiveMaximum => do
    let v ← readU16
    match v with
    | 0 => ReadM.fail .malformedPacket
    | _ => pure (.receiveMaximum v)
  | .topicAliasMaximum => do
    let v ← readU16
    pure (.topicAliasMaximum v)
  | .topicAlias => do
    let v ← readU16
    pure (.topicAlias v)
  | .maximumQoS => do
    let v ← QoS.decodeQoS
    pure (.maximumQoS v)
  | .retainAvailable => do
    let v ← readBool
    pure (.retainAvailable v)
  | .userProperty => do
    let k ← readChunk
    let v ← readChunk
    pure (.userProperty k v)
  | .maximumPacketSize => do
    let v ← readU32
    pure (.maximumPacketSize v)
  | .wildcardSubscriptionAvailable => do
    let v ← readBool
    pure (.wildcardSubscriptionAvailable v)
  | .subscriptionIdentifierAvailable => do
    let v ← readBool
    pure (.subscriptionIdentifierAvailable v)
  | .sharedSubscriptionAvailable => do
    let v ← readBool
    pure (.sharedSubscriptionAvailable v)

/-- `PropertiesDecoder::read`: decode one property id through the
bounded cursor, reject a non-repeatable id already seen in this region
(protocol violation), then decode the payload for that kind. -/
def PropertiesDecoder.read (d : PropertiesDecoder) :
    Except Error (Property × PropertiesDecoder) := do
  let (id, rd₁) ← PropertyId.decodeId d.rd
  if id ≠ PropertyId.userProperty ∧ id ∈ d.marked then
    .error .protocolError
  else do
    let marked' :=
      if id = PropertyId.userProperty then d.marked else id :: d.marked
    let (p, rd₂) ← readPropertyValue id rd₁
    .ok (p, ⟨rd₂, marked'⟩)

/-- The `while properties.has_properties()` pattern common to the four
packet framings: repeatedly read a property and fold it into the state
with the packet's match arms (`step`).  `fuel` is an upper bound on the
number of iterations; each packet instantiates it with one more than
the region's remaining limit, which a successful read always strictly
decreases. -/
def propLoop (step : σ → Property → Except Error σ) :
    Nat → PropertiesDecoder → σ → Except Error σ
  | 0, _, _ => .error .ioError
  | fuel + 1, d, st =>
    if d.hasProperties then do
      let (p, d') ← d.read
      let st' ← step st p
      propLoop step fuel d' st'
    else .ok st

/-- Drain the bounded region into the list of its properties, in wire
order (the same loop as `propLoop`, collecting instead of folding). -/
def readAllProps : Nat → PropertiesDecoder → Except Error (List Property)
  | 0, _ => .error .ioError
  | fuel + 1, d =>
    if d.hasProperties then do
      let (p, d') ← d.read
      let ps ← readAllProps fuel d'
      .ok (p :: ps)
    else .ok []

/-- Encode a list of user properties in order into the properties
buffer (the `for (k, v) in self.user_properties` loops). -/
def encodeUserProps :
    List (List Nat × List Nat) → Except Error (Nat × List Nat)
  | [] => .ok (0, [])
  | (k, v) :: t => do
    let (n1, b1) ← Property.encode (.userProperty k v)
    let (n2, b2) ← encodeUserProps t
    .ok (n1 + n2, b1 ++ b2)

/-- Encode a list of subscription identifiers in order into the
properties buffer (the `for v in self.subscription_identifiers` loop of
`Publish::write`). -/
def encodeSubscriptionIds : List Nat → Except Error (Nat × List Nat)
  | [] => .ok (0, [])
  | v :: t => do
    let (n1, b1) ← Property.encode (.subscriptionIdentifier v)
    let (n2, b2) ← encodeSubscriptionIds t
    .ok (n1 + n2, b1 ++ b2)

/-- Encode an optional reason string / optional property payload: the
`if let Some(v) = ...` pattern writes nothing for `None`. -/
def encodeOpt (f : α → Property) :
    Option α → Except Error (Nat × List Nat)
  | some v => Property.encode (f v)
  | none => .ok (0, [])

/-- The `PubAck` packet value (`puback.rs`). -/
structure PubAck where
  packet_identifier : Nat
  reason_code : ReasonCode
  reason_string : Option (List Nat)
  user_properties : List (List Nat × List Nat)
deriving DecidableEq, Repr

/-- Mutable state of the `PubAck::read` properties loop. -/
structure PubAckSt where
  reason_string : Option (List Nat)
  user_properties : List (List Nat × List Nat)
deriving DecidableEq, Repr

/-- The match arms of the `PubAck::read` properties loop: reason string
and user properties are accepted, everything else is a protocol
violation. -/
def pubAckStep (st : PubAckSt) (p : Property) : Except Error PubAckSt :=
  match p with
  | .reasonString v => .ok { st with reason_string := some v }
  | .userProperty k v =>
    .ok { st with user_properties := st.user_properties ++ [(k, v)] }
  | _ => .error .protocolError

/-- `PubAck::write` (`puback.rs`): identifier first, then the encoded
properties buffer is inspected — `if n_bytes == 2 &&
self.reason_code != ReasonCode::Success` the bare 2-byte identifier is
emitted, otherwise reason code, properties length and properties
follow.  The comparison is translated verbatim from the source. -/
def pubAckWrite (p : PubAck) : Except Error (Nat × List Nat) := do
  let idB := u16bytes p.packet_identifier
  let (nr, br) ← encodeOpt Property.reasonString p.reason_string
  let (nu, bu) ← encodeUserProps p.user_properties
  let n := 2 + nr + nu
  if n = 2 ∧ p.reason_code ≠ ReasonCode.success then
    .ok (2, idB)
  else do
    let lenB ← vbiEncode (br ++ bu).length
    .ok (n + 1 + lenB.length,
         idB ++ p.reason_code.toByte :: (lenB ++ br ++ bu))

/-- `PubAck::read` (`puback.rs`): identifier, then — unless the caller
says the packet is shortened — a reason code validated for PUBACK and a
properties region restricted to reason string and user properties. -/
def pubAckRead (r : Rd) (shortened : Bool) :
    Except Error (PubAck × Rd) := do
  let (pid, r) ← readU16 r
  if shortened then
    .ok (⟨pid, ReasonCode.success, none, []⟩, r)
  else do
    let (b, r) ← readByte r
    let rc ← ReasonCode.tryParse b ControlPacketType.PUBACK
    let (d, rAfter) ← PropertiesDecoder.take r
    let st ← propLoop pubAckStep (d.rd.limit + 1) d ⟨none, []⟩
    .ok (⟨pid, rc, st.reason_string, st.user_properties⟩, rAfter)

/-- The `Authentication` aggregate: opaque method and data. -/
structure Authentication where
  method : List Nat
  data : List Nat
deriving DecidableEq, Repr

/-- Modelled from the spec: `Authentication::encode` — the
authentication method property (required) followed by the
authentication data property, the latter elided at its default (empty)
value (§4.4: authentication data defaults to empty). -/
def Authentication.encode (a : Authentication) :
    Except Error (Nat × List Nat) := do
  let (n1, b1) ← Property.encode (.authenticationMethod a.method)
  if a.data = [] then .ok (n1, b1)
  else do
    let (n2, b2) ← Property.encode (.authenticationData a.data)
    .ok (n1 + n2, b1 ++ b2)

/-- The `Auth` packet value (`auth.rs`). -/
structure Auth where
  reason_code : ReasonCode
  authentication : Authentication
  reason_string : Option (List Nat)
  user_properties : List (List Nat × List Nat)
deriving DecidableEq, Repr

/-- Mutable state of the `Auth::read` properties loop. -/
structure AuthSt where
  reason_string : Option (List Nat)
  user_properties : List (List Nat × List Nat)
  authentication_method : Option (List Nat)
  authentication_data : List Nat
deriving DecidableEq, Repr

/-- The match arms of the `Auth::read` properties loop. -/
def authStep (st : AuthSt) (p : Property) : Except Error AuthSt :=
  match p with
  | .reasonString v => .ok { st with reason_string := some v }
  | .userProperty k v =>
    .ok { st with user_properties := st.user_properties ++ [(k, v)] }
  | .authenticationMethod v =>
    .ok { st with authentication_method := some v }
  | .authenticationData v => .ok { st with authentication_data := v }
  | _ => .error .protocolError

/-- `Auth::write` (`auth.rs`): reason code, then the properties region
holding the authentication properties, optional reason string and user
properties, prefixed by its byte length. -/
def authWrite (p : Auth) : Except Error (Nat × List Nat) := do
  let (na, ba) ← p.authentication.encode
  let (nr, br) ← encodeOpt Property.reasonString p.reason_string
  let (nu, bu) ← encodeUserProps p.user_properties
  let props := ba ++ br ++ bu
  let lenB ← vbiEncode props.length
  .ok (1 + na + nr + nu + lenB.length,
       p.reason_code.toByte :: (lenB ++ props))

/-- `Auth::read` (`auth.rs`): reason code validated for AUTH, then the
properties loop; a missing authentication method is a protocol
violation, missing authentication data falls back to the empty
default. -/
def authRead (r : Rd) : Except Error (Auth × Rd) := do
  let (b, r) ← readByte r
  let rc ← ReasonCode.tryParse b ControlPacketType.AUTH
  let (d, rAfter) ← PropertiesDecoder.take r
  let st ← propLoop authStep (d.rd.limit + 1) d ⟨none, [], none, []⟩
  match st.authentication_method with
  | some m =>
    .ok (⟨rc, ⟨m, st.authentication_data⟩, st.reason_string,
          st.user_properties⟩, rAfter)
  | none => .error .protocolError

/-- The `Publish` packet value (`publish.rs`). -/
structure Publish where
  duplicate : Bool
  qos : QoS
  retain : Bool
  topic_name : List Nat
  packet_identifier : Option Nat
  payload_format_indicator : Bool
  message_expiry_interval : Option Nat
  topic_alias : Option Nat
  response_topic : Option (List Nat)
  correlation_data : Option (List Nat)
  user_properties : List (List Nat × List Nat)
  subscription_identifiers : List Nat
  content_type : List Nat
  message : List Nat
deriving DecidableEq, Repr

/-- Mutable state of the `Publish::read` properties loop. -/
structure PubSt where
  payload_format_indicator : Bool
  message_expiry_interval : Option Nat
  topic_alias : Option Nat
  response_topic : Option (List Nat)
  correlation_data : Option (List Nat)
  user_properties : List (List Nat × List Nat)
  subscription_identifiers : List Nat
  content_type : List Nat
deriving DecidableEq, Repr

/-- The match arms of the `Publish::read` properties loop. -/
def pubStep (st : PubSt) (p : Property) : Except Error PubSt :=
  match p with
  | .payloadFormatIndicator v =>
    .ok { st with payload_format_indicator := v }
  | .messageExpiryInterval v =>
    .ok { st with message_expiry_interval := some v }
  | .topicAlias v => .ok { st with topic_alias := some v }
  | .responseTopic v => .ok { st with response_topic := some v }
  | .correlationData v => .ok { st with correlation_data := some v }
  | .userProperty k v =>
    .ok { st with user_properties := st.user_properties ++ [(k, v)] }
  | .subscriptionIdentifier v =>
    .ok { st with
          subscription_identifiers := st.subscription_identifiers ++ [v] }
  | .contentType v => .ok { st with content_type := v }
  | _ => .error .protocolError

/-- `Publish::write` (`publish.rs`): topic name, a packet identifier
required exactly when the quality of service is not at-most-once
(missing one is a protocol violation), the properties region, and the
trailing opaque payload. -/
def publishWrite (p : Publish) : Except Error (Nat × List Nat) := do
  let tB ← chunkEncode p.topic_name
  let pidB ←
    if p.qos ≠ QoS.atMostOnce then
      match p.packet_identifier with
      | some i => Except.ok (u16bytes i)
      | none => Except.error Error.protocolError
    else Except.ok []
  let (n1, b1) ←
    Property.encode (.payloadFormatIndicator p.payload_format_indicator)
  let (n2, b2) ←
    encodeOpt Property.messageExpiryInterval p.message_expiry_interval
  let (n3, b3) ← encodeOpt Property.topicAlias p.topic_alias
  let (n4, b4) ← encodeOpt Property.responseTopic p.response_topic
  let (n5, b5) ← encodeOpt Property.correlationData p.correlation_data
  let (n6, b6) ← encodeUserProps p.user_properties
  let (n7, b7) ← encodeSubscriptionIds p.subscription_identifiers
  let (n8, b8) ← Property.encode (.contentType p.content_type)
  let props := b1 ++ b2 ++ b3 ++ b4 ++ b5 ++ b6 ++ b7 ++ b8
  let lenB ← vbiEncode props.length
  .ok (tB.length + pidB.length + (n1 + n2 + n3 + n4 + n5 + n6 + n7 + n8)
         + lenB.length + p.message.length,
       tB ++ pidB ++ lenB ++ props ++ p.message)

/-- `Publish::read` (`publish.rs`): the body is bounded by the declared
remaining length; topic name, conditional packet identifier, the
properties loop, then everything left inside the bound is the opaque
payload (`read_to_end`). -/
def publishRead (r0 : Rd) (duplicate : Bool) (qos : QoS) (retain : Bool)
    (remaining_size : Nat) : Except Error Publish := do
  let r : Rd := ⟨r0.data.take (min remaining_size r0.limit), remaining_size⟩
  let (topic_name, r) ← readChunk r
  let (packet_identifier, r) ←
    if qos ≠ QoS.atMostOnce then do
      let (i, r') ← readU16 r
      Except.ok (some i, r')
    else Except.ok (none, r)
  let (d, rAfter) ← PropertiesDecoder.take r
  let st ← propLoop pubStep (d.rd.limit + 1) d
    ⟨DEFAULT_PAYLOAD_FORMAT_INDICATOR, none, none, none, none, [], [], []⟩
  let message := rAfter.data.take rAfter.limit
  .ok ⟨duplicate, qos, retain, topic_name, packet_identifier,
       st.payload_format_indicator, st.message_expiry_interval,
       st.topic_alias, st.response_topic, st.correlation_data,
       st.user_properties, st.subscription_identifiers, st.content_type,
       message⟩

/-- The `SubAck` packet value (`suback.rs`). -/
structure SubAck where
  packet_identifier : Nat
  user_properties : List (List Nat × List Nat)
  reason_codes : List ReasonCode
deriving DecidableEq, Repr

/-- The match arms of the `SubAck::read` properties loop: only user
properties are legal. -/
def subAckStep (st : List (List Nat × List Nat)) (p : Property) :
    Except Error (List (List Nat × List Nat)) :=
  match p with
  | .userProperty k v => .ok (st ++ [(k, v)])
  | _ => .error .protocolError

/-- The `while reader.limit() > 0` trailing loop of `SubAck::read`: one
SUBACK-validated reason code per remaining byte of the body. -/
def readReasonCodes : Nat → Rd → Except Error (List ReasonCode)
  | 0, _ => .error .ioError
  | fuel + 1, r =>
    if 0 < r.limit then do
      let (b, r') ← readByte r
      let rc ← ReasonCode.tryParse b ControlPacketType.SUBACK
      let rcs ← readReasonCodes fuel r'
      .ok (rc :: rcs)
    else .ok []

/-- `SubAck::write` (`suback.rs`): identifier, length-prefixed
properties region (user properties only), then one byte per reason
code. -/
def subAckWrite (p : SubAck) : Except Error (Nat × List Nat) := do
  let idB := u16bytes p.packet_identifier
  let (nu, bu) ← encodeUserProps p.user_properties
  let lenB ← vbiEncode bu.length
  .ok (2 + nu + lenB.length + p.reason_codes.length,
       idB ++ lenB ++ bu ++ p.reason_codes.map ReasonCode.toByte)

/-- `SubAck::read` (`suback.rs`): the body is bounded by the declared
remaining length; identifier, properties loop, then reason codes until
the bound is exhausted. -/
def subAckRead (r0 : Rd) (remaining_size : Nat) :
    Except Error SubAck := do
  let r : Rd := ⟨r0.data.take (min remaining_size r0.limit), remaining_size⟩
  let (pid, r) ← readU16 r
  let (d, rAfter) ← PropertiesDecoder.take r
  let ups ← propLoop subAckStep (d.rd.limit + 1) d []
  let rcs ← readReasonCodes (rAfter.limit + 1) rAfter
  .ok ⟨pid, ups, rcs⟩

/-- Reader `r'` is reader `r` advanced by some `k` bytes that were
available both under the limit and in the data: the consumed bytes all
came from `r`'s own (bounded) view. -/
def Rd.adv (r r' : Rd) : Prop :=
  ∃ k, k ≤ r.limit ∧ k ≤ r.data.length ∧
    r'.data = r.data.drop k ∧ r'.limit = r.limit - k

/-- A read computation only ever advances its reader within bounds. -/
def Advances (m : ReadM α) : Prop :=
  ∀ r a r', m r = .ok (a, r') → r.adv r'

/-- A read computation that advances and consumes at least one byte. -/
def AdvancesS (m : ReadM α) : Prop :=
  ∀ r a r', m r = .ok (a, r') → r.adv r' ∧ r'.limit < r.limit

/-- The property kinds the `Auth::read` loop accepts (its non-error
match arms). -/
def allowedAuthProp : Property → Bool
  | .reasonString _ => true
  | .userProperty _ _ => true
  | .authenticationMethod _ => true
  | .authenticationData _ => true
  | _ => false

/-- A property whose payload sits at that property's default value,
per the default-value table (spec §3: the `DEFAULT_*` constants; only
the kinds appearing in that table have a default). -/
def Property.isDefaultValued : Property → Bool
  | .payloadFormatIndicator v => v == DEFAULT_PAYLOAD_FORMAT_INDICATOR
  | .sessionExpiryInterval v => v == DEFAULT_SESSION_EXPIRY_INTERVAL
  | .requestProblemInformation v => v == DEFAULT_REQUEST_PROBLEM_INFORMATION
  | .willDelayInterval v => v == DEFAULT_WILL_DELAY_INTERVAL
  | .requestResponseInformation v =>
    v == DEFAULT_REQUEST_RESPONSE_INFORMATION
  | .receiveMaximum v => v == DEFAULT_RECEIVE_MAXIMUM
  | .topicAliasMaximum v => v == DEFAULT_TOPIC_ALIAS_MAXIMUM
  | .maximumQoS v => v == DEFAULT_MAXIMUM_QOS
  | .retainAvailable v => v == DEFAULT_RETAIN_AVAILABLE
  | .wildcardSubscriptionAvailable v =>
    v == DEFAULT_WILCARD_SUBSCRIPTION_AVAILABLE
  | .sharedSubscriptionAvailable v =>
    v == DEFAULT_SHARED_SUBSCRIPTION_AVAILABLE
  | _ => false

/-!  Theorems.  -/

theorem readM_bind_apply (m : ReadM α) (f : α → ReadM β) (r : Rd) :
    (m >>= f) r =
      match m r with
      | .ok (a, r') => f a r'
      | .error e => .error e := rfl

theorem readM_pure_apply (a : α) (r : Rd) :
    (pure a : ReadM α) r = .ok (a, r) := rfl

theorem exBind_ok {ε α β : Type} (a : α) (f : α → Except ε β) :
    (Except.ok a >>= f) = f a := rfl

theorem exBind_err {ε α β : Type} (e : ε) (f : α → Except ε β) :
    ((Except.error e : Except ε α) >>= f) = .error e := rfl

theorem exBind_ok_inv {ε α β : Type} {m : Except ε α} {f : α → Except ε β}
    {b : β} (h : (m >>= f) = .ok b) : ∃ a, m = .ok a ∧ f a = .ok b := by
  cases m with
  | error e => rw [exBind_err] at h; cases h
  | ok a => exact ⟨a, rfl, h⟩

theorem Rd.adv_refl (r : Rd) : r.adv r :=
  ⟨0, Nat.zero_le _, Nat.zero_le _, by simp, by simp⟩

theorem Rd.adv_trans {r₁ r₂ r₃ : Rd} (h₁ : r₁.adv r₂) (h₂ : r₂.adv r₃) :
    r₁.adv r₃ := by
  obtain ⟨k₁, h1l, h1d, h1D, h1L⟩ := h₁
  obtain ⟨k₂, h2l, h2d, h2D, h2L⟩ := h₂
  rw [h1L] at h2l h2L
  rw [h1D] at h2d h2D
  rw [List.length_drop] at h2d
  refine ⟨k₁ + k₂, by omega, by omega, ?_, by omega⟩
  rw [h2D, List.drop_drop]

theorem Rd.adv_limit_le {r r' : Rd} (h : r.adv r') : r'.limit ≤ r.limit := by
  obtain ⟨k, _, _, _, hL⟩ := h
  rw [hL]
  exact Nat.sub_le _ _

theorem Advances.ofS {m : ReadM α} (h : AdvancesS m) : Advances m :=
  fun r a r' hr => (h r a r' hr).1

theorem advances_pure (a : α) : Advances (pure a : ReadM α) := by
  intro r b r' h
  rw [readM_pure_apply] at h
  cases h
  exact Rd.adv_refl r

theorem advances_fail (e : Error) : Advances (ReadM.fail e : ReadM α) := by
  intro r a r' h
  cases h

theorem advances_bind {m : ReadM α} {f : α → ReadM β} (hm : Advances m)
    (hf : ∀ a, Advances (f a)) : Advances (m >>= f) := by
  intro r b r' h
  rw [readM_bind_apply] at h
  cases hmr : m r with
  | error e => rw [hmr] at h; cases h
  | ok p =>
    obtain ⟨a, r₁⟩ := p
    rw [hmr] at h
    exact Rd.adv_trans (hm r a r₁ hmr) (hf a r₁ b r' h)

theorem advancesS_bind {m : ReadM α} {f : α → ReadM β} (hm : AdvancesS m)
    (hf : ∀ a, Advances (f a)) : AdvancesS (m >>= f) := by
  intro r b r' h
  rw [readM_bind_apply] at h
  cases hmr : m r with
  | error e => rw [hmr] at h; cases h
  | ok p =>
    obtain ⟨a, r₁⟩ := p
    rw [hmr] at h
    obtain ⟨ha, hl⟩ := hm r a r₁ hmr
    refine ⟨Rd.adv_trans ha (hf a r₁ b r' h), ?_⟩
    exact Nat.lt_of_le_of_lt (Rd.adv_limit_le (hf a r₁ b r' h)) hl

theorem advancesS_readByte : AdvancesS readByte := by
  intro r a r' h
  obtain ⟨data, limit⟩ := r
  match limit, data, h with
  | l + 1, bb :: d, h =>
    injection h with h'
    injection h' with ha hr
    subst ha
    subst hr
    refine ⟨⟨1, ?_, ?_, ?_, ?_⟩, ?_⟩
    · show 1 ≤ l + 1
      omega
    · show 1 ≤ (bb :: d).length
      simp
    · show d = (bb :: d).drop 1
      rfl
    · show l = (l + 1) - 1
      omega
    · show l < l + 1
      omega

theorem advances_readByte : Advances readByte :=
  Advances.ofS advancesS_readByte

theorem advances_readExact (n : Nat) : Advances (readExact n) := by
  intro r a r' h
  unfold readExact at h
  split at h
  · cases h
    next hc => exact ⟨n, hc.1, hc.2, rfl, rfl⟩
  · cases h

theorem advances_readU16 : Advances readU16 :=
  advances_bind advances_readByte fun _ =>
    advances_bind advances_readByte fun _ => advances_pure _

theorem advances_readU32 : Advances readU32 :=
  advances_bind advances_readByte fun _ =>
    advances_bind advances_readByte fun _ =>
      advances_bind advances_readByte fun _ =>
        advances_bind advances_readByte fun _ => advances_pure _

theorem advances_readBool : Advances readBool := by
  unfold readBool
  refine advances_bind advances_readByte fun b => ?_
  match b with
  | 0 => exact advances_pure _
  | 1 => exact advances_pure _
  | _ + 2 => exact advances_fail _

theorem advancesS_vbiDecode : AdvancesS vbiDecode := by
  unfold vbiDecode
  refine advancesS_bind advancesS_readByte fun b0 => ?_
  split
  · exact advances_pure _
  · refine advances_bind advances_readByte fun b1 => ?_
    split
    · exact advances_pure _
    · refine advances_bind advances_readByte fun b2 => ?_
      split
      · exact advances_pure _
      · refine advances_bind advances_readByte fun b3 => ?_
        split
        · exact advances_pure _
        · exact advances_fail _

theorem advances_vbiDecode : Advances vbiDecode :=
  Advances.ofS advancesS_vbiDecode

theorem advances_readChunk : Advances readChunk :=
  advances_bind advances_readU16 fun n => advances_readExact n

theorem advances_decodeQoS : Advances QoS.decodeQoS := by
  unfold QoS.decodeQoS
  refine advances_bind advances_readByte fun b => ?_
  match b with
  | 0 => exact advances_pure _
  | 1 => exact advances_pure _
  | 2 => exact advances_pure _
  | _ + 3 => exact advances_fail _

theorem advancesS_decodeId : AdvancesS PropertyId.decodeId := by
  unfold PropertyId.decodeId
  refine advancesS_bind advancesS_vbiDecode fun n => ?_
  rcases h : PropertyId.fromNat n with _ | id
  · intro r a r' hr
    simp only [h] at hr
    cases hr
  · intro r a r' hr
    simp only [h] at hr
    rw [readM_pure_apply] at hr
    cases hr
    exact Rd.adv_refl r

theorem advances_readPropertyValue (id : PropertyId) :
    Advances (readPropertyValue id) := by
  cases id <;> unfold readPropertyValue <;>
    first
    | exact advances_bind advances_readChunk fun _ => advances_pure _
    | exact advances_bind advances_readU32 fun _ => advances_pure _
    | exact advances_bind advances_readU16 fun _ => advances_pure _
    | exact advances_bind advances_readBool fun _ => advances_pure _
    | exact advances_bind advances_decodeQoS fun _ => advances_pure _
    | exact advances_bind advances_readChunk fun _ =>
        advances_bind advances_readChunk fun _ => advances_pure _
    | (refine advances_bind advances_readByte fun b => ?_
       match b with
       | 0 => exact advances_pure _
       | 1 => exact advances_pure _
       | _ + 2 => exact advances_fail _)
    | (refine advances_bind advances_vbiDecode fun v => ?_
       split
       · exact advances_fail _
       · exact advances_pure _)
    | (refine advances_bind advances_readU16 fun v => ?_
       match v with
       | 0 => exact advances_fail _
       | _ + 1 => exact advances_pure _)

theorem propLoop_eq_foldlM {σ : Type} (step : σ → Property → Except Error σ) :
    ∀ fuel d ps, readAllProps fuel d = .ok ps →
      ∀ st, propLoop step fuel d st = ps.foldlM step st := by
  intro fuel
  induction fuel with
  | zero => intro d ps h; cases h
  | succ f ih =>
    intro d ps h st
    unfold readAllProps at h
    unfold propLoop
    by_cases hp : d.hasProperties = true
    · rw [if_pos hp] at h
      rw [if_pos hp]
      obtain ⟨⟨p, d'⟩, hr, h⟩ := exBind_ok_inv h
      dsimp only at h
      obtain ⟨ps', hra, h2⟩ := exBind_ok_inv h
      injection h2 with h2
      subst h2
      rw [List.foldlM_cons]
      simp only [hr, exBind_ok]
      cases hs : step st p with
      | error e => simp [hs, exBind_err]
      | ok st₁ =>
        simp only [hs, exBind_ok]
        exact ih d' ps' hra st₁
    · rw [if_neg hp] at h
      rw [if_neg hp]
      injection h with h
      subst h
      simp [List.foldlM_nil]
      rfl

theorem pubStep_preserves_pfi (p : Property) (st st' : PubSt)
    (h : pubStep st p = .ok st')
    (hb : ∀ b, p ≠ Property.payloadFormatIndicator b) :
    st'.payload_format_indicator = st.payload_format_indicator := by
  cases p <;> simp only [pubStep] at h <;> cases h <;>
    first
    | rfl
    | exact absurd rfl (hb _)

theorem foldlM_pubStep_pfi :
    ∀ (ps : List Property) (st st' : PubSt),
      (∀ b, Property.payloadFormatIndicator b ∉ ps) →
      ps.foldlM pubStep st = .ok st' →
      st'.payload_format_indicator = st.payload_format_indicator := by
  intro ps
  induction ps with
  | nil =>
    intro st st' _ h
    injection h with h
    subst h
    rfl
  | cons p t ih =>
    intro st st' hb h
    rw [List.foldlM_cons] at h
    obtain ⟨st₁, h1, h2⟩ := exBind_ok_inv h
    have e1 : st₁.payload_format_indicator = st.payload_format_indicator :=
      pubStep_preserves_pfi p st st₁ h1
        (fun b hpb => hb b (hpb ▸ List.mem_cons_self p t))
    rw [ih st₁ st' (fun b hbt => hb b (List.mem_cons_of_mem _ hbt)) h2, e1]

theorem readByte_cons (b : Nat) (d : List Nat) (l : Nat) (h : 0 < l) :
    readByte ⟨b :: d, l⟩ = .ok (b, ⟨d, l - 1⟩) := by
  obtain ⟨k, rfl⟩ : ∃ k, l = k + 1 := ⟨l - 1, by omega⟩
  rfl

theorem vbiDecode_single (b : Nat) (d : List Nat) (l : Nat)
    (hb : b < 128) (hl : 0 < l) :
    vbiDecode ⟨b :: d, l⟩ = .ok (b, ⟨d, l - 1⟩) := by
  unfold vbiDecode
  rw [readM_bind_apply, readByte_cons b d l hl]
  dsimp only
  rw [if_pos hb]
  rfl

theorem readU16_two (a b : Nat) (d : List Nat) (l : Nat) (hl : 2 ≤ l) :
    readU16 ⟨a :: b :: d, l⟩ = .ok (a * 256 + b, ⟨d, l - 2⟩) := by
  unfold readU16
  rw [readM_bind_apply, readByte_cons a (b :: d) l (by omega)]
  dsimp only
  rw [readM_bind_apply, readByte_cons b d (l - 1) (by omega)]
  dsimp only
  rw [readM_pure_apply]
  have : l - 1 - 1 = l - 2 := by omega
  rw [this]

theorem readExact_prefix (xs rest : List Nat) (l : Nat)
    (hl : xs.length ≤ l) :
    readExact xs.length ⟨xs ++ rest, l⟩ = .ok (xs, ⟨rest, l - xs.length⟩) := by
  unfold readExact
  rw [if_pos ⟨hl, by simp⟩]
  rw [List.take_left, List.drop_left]

theorem u16bytes_val (n : Nat) (h : n < 65536) :
    n / 256 % 256 * 256 + n % 256 = n := by
  omega

theorem readChunk_chunk (xs rest : List Nat) (l : Nat)
    (hx : xs.length < 65536) (hl : 2 + xs.length ≤ l) :
    readChunk ⟨(u16bytes xs.length ++ xs) ++ rest, l⟩ =
      .ok (xs, ⟨rest, l - (2 + xs.length)⟩) := by
  unfold readChunk
  have hshape : (u16bytes xs.length ++ xs) ++ rest =
      xs.length / 256 % 256 :: xs.length % 256 :: (xs ++ rest) := by
    simp [u16bytes]
  rw [hshape, readM_bind_apply,
    readU16_two _ _ (xs ++ rest) l (by omega)]
  dsimp only
  rw [u16bytes_val xs.length hx,
    readExact_prefix xs rest (l - 2) (by omega)]
  have : l - 2 - xs.length = l - (2 + xs.length) := by omega
  rw [this]

theorem decodeId_head (i : Nat) (id : PropertyId) (d : List Nat) (l : Nat)
    (hi : i < 128) (hl : 0 < l) (hid : PropertyId.fromNat i = some id) :
    PropertyId.decodeId ⟨i :: d, l⟩ = .ok (id, ⟨d, l - 1⟩) := by
  unfold PropertyId.decodeId
  rw [readM_bind_apply, vbiDecode_single i d l hi hl]
  dsimp only
  rw [hid]
  rfl

theorem read_userProperty_step (k v tail : List Nat) (L : Nat)
    (marked : List PropertyId)
    (hk : k.length < 65536) (hv : v.length < 65536)
    (hL : 5 + k.length + v.length ≤ L) :
    PropertiesDecoder.read
      ⟨⟨38 :: ((u16bytes k.length ++ k) ++ (u16bytes v.length ++ v)) ++ tail,
        L⟩, marked⟩ =
      .ok (.userProperty k v,
        ⟨⟨tail, L - (5 + k.length + v.length)⟩, marked⟩) := by
  unfold PropertiesDecoder.read
  have hcons : (38 :: ((u16bytes k.length ++ k) ++ (u16bytes v.length ++ v)))
      ++ tail =
      38 :: ((u16bytes k.length ++ k) ++ ((u16bytes v.length ++ v) ++ tail))
      := by
    simp [List.append_assoc]
  rw [hcons,
    decodeId_head 38 .userProperty _ L (by omega) (by omega) rfl, exBind_ok]
  dsimp only
  rw [if_neg (by simp)]
  rw [if_pos rfl]
  unfold readPropertyValue
  dsimp only
  rw [readM_bind_apply,
    readChunk_chunk k ((u16bytes v.length ++ v) ++ tail) (L - 1) hk
      (by omega)]
  dsimp only
  rw [readM_bind_apply,
    readChunk_chunk v tail (L - 1 - (2 + k.length)) hv (by omega)]
  dsimp only
  rw [readM_pure_apply, exBind_ok]
  have : L - 1 - (2 + k.length) - (2 + v.length) =
      L - (5 + k.length + v.length) := by omega
  rw [this]

theorem encode_userProperty_inv {k v : List Nat} {n : Nat} {bs : List Nat}
    (h : Property.encode (.userProperty k v) = .ok (n, bs)) :
    k.length < 65536 ∧ v.length < 65536 ∧
    bs = 38 :: ((u16bytes k.length ++ k) ++ (u16bytes v.length ++ v)) := by
  have hE : Property.encode (.userProperty k v) =
      (do
        let idB ← PropertyId.userProperty.encodeId
        let sk ← chunkEncode k
        let sv ← chunkEncode v
        Except.ok (idB.length + sk.length + sv.length, idB ++ sk ++ sv)) :=
    rfl
  rw [hE] at h
  rw [show PropertyId.userProperty.encodeId = Except.ok [38] from rfl,
    exBind_ok] at h
  unfold chunkEncode at h
  by_cases hk : k.length < 65536
  · rw [if_pos hk, exBind_ok] at h
    by_cases hv : v.length < 65536
    · rw [if_pos hv, exBind_ok] at h
      injection h with h
      injection h with h1 h2
      subst h2
      exact ⟨hk, hv, by simp⟩
    · rw [if_neg hv, exBind_err] at h
      cases h
  · rw [if_neg hk, exBind_err] at h
    cases h

theorem readAllProps_userProps :
    ∀ (kvs : List (List Nat × List Nat)) (n : Nat) (bs : List Nat)
      (marked : List PropertyId) (fuel : Nat),
      encodeUserProps kvs = .ok (n, bs) → bs.length < fuel →
      readAllProps fuel ⟨⟨bs, bs.length⟩, marked⟩ =
        .ok (kvs.map fun kv => Property.userProperty kv.1 kv.2) := by
  intro kvs
  induction kvs with
  | nil =>
    intro n bs marked fuel h hf
    injection h with h
    injection h with h1 h2
    subst h2
    obtain ⟨f, rfl⟩ : ∃ f, fuel = f + 1 := ⟨fuel - 1, by omega⟩
    rfl
  | cons kv t ih =>
    obtain ⟨k, v⟩ := kv
    intro n bs marked fuel h hf
    unfold encodeUserProps at h
    obtain ⟨⟨n₁, b₁⟩, h1, h⟩ := exBind_ok_inv h
    dsimp only at h
    obtain ⟨⟨n₂, b₂⟩, h2, h⟩ := exBind_ok_inv h
    dsimp only at h
    injection h with h
    injection h with hn hbs
    subst hbs
    obtain ⟨hk, hv, hb₁⟩ := encode_userProperty_inv h1
    subst hb₁
    obtain ⟨f, rfl⟩ : ∃ f, fuel = f + 1 := ⟨fuel - 1, by omega⟩
    have hlen : (38 :: ((u16bytes k.length ++ k) ++ (u16bytes v.length ++ v))
        ++ b₂).length = (5 + k.length + v.length) + b₂.length := by
      simp [u16bytes]
      omega
    unfold readAllProps
    rw [if_pos (by simp [PropertiesDecoder.hasProperties, hlen])]
    rw [read_userProperty_step k v b₂ _ marked hk hv (by rw [hlen]; omega),
      exBind_ok]
    dsimp only
    have hrest : (38 :: ((u16bytes k.length ++ k) ++ (u16bytes v.length ++ v))
        ++ b₂).length - (5 + k.length + v.length) = b₂.length := by
      rw [hlen]; omega
    rw [hrest]
    rw [ih n₂ b₂ marked f h2 (by rw [hlen] at hf; omega), exBind_ok]
    simp

/-- C4.  Duplicate detection.  A `PropertiesDecoder::read` that decodes
a property id other than `UserProperty` which is already in the seen
set fails with the protocol violation; and a region consisting of any
sequence of encoded user-property entries — repeats included — decodes
successfully into exactly those entries, in wire order and count
(whatever ids were seen before). -/
theorem claim4_duplicate_detection :
    (∀ (d : PropertiesDecoder) (id : PropertyId) (rd₁ : Rd),
      PropertyId.decodeId d.rd = .ok (id, rd₁) →
      id ≠ PropertyId.userProperty → id ∈ d.marked →
      d.read = .error .protocolError) ∧
    (∀ (kvs : List (List Nat × List Nat)) (marked : List PropertyId)
       (n : Nat) (bs : List Nat),
      encodeUserProps kvs = .ok (n, bs) →
      readAllProps (bs.length + 1) ⟨⟨bs, bs.length⟩, marked⟩ =
        .ok (kvs.map fun kv => Property.userProperty kv.1 kv.2)) := by
  constructor
  · intro d id rd₁ h1 h2 h3
    unfold PropertiesDecoder.read
    rw [h1, exBind_ok]
    dsimp only
    rw [if_pos ⟨h2, h3⟩]
  · intro kvs marked n bs h
    exact readAllProps_userProps kvs n bs marked (bs.length + 1) h
      (by omega)

/-- Witness for C4 at concrete inputs: a reason-string id read twice is
rejected as a protocol violation, and a region of two user properties —
with the same key — decodes to both entries in order. -/
theorem claim4_duplicate_detection_witness :
    PropertiesDecoder.read ⟨⟨[31, 0, 0], 3⟩, [.reasonString]⟩ =
      .error .protocolError ∧
    readAllProps 15 ⟨⟨[38, 0, 1, 5, 0, 1, 6, 38, 0, 1, 5, 0, 1, 7], 14⟩,
        [.reasonString]⟩ =
      .ok [.userProperty [5] [6], .userProperty [5] [7]] := by
  constructor
  · exact claim4_duplicate_detection.1 ⟨⟨[31, 0, 0], 3⟩, [.reasonString]⟩
      .reasonString ⟨[0, 0], 2⟩ (by decide) (by decide) (by decide)
  · have h := claim4_duplicate_detection.2 [([5], [6]), ([5], [7])]
      [.reasonString] 14 [38, 0, 1, 5, 0, 1, 6, 38, 0, 1, 5, 0, 1, 7]
      (by decide)
    simpa using h

theorem authStep_error_kind (st : AuthSt) (p : Property) (e : Error)
    (h : authStep st p = .error e) : e = .protocolError := by
  cases p <;> simp only [authStep] at h <;> cases h <;> rfl

theorem foldlM_authStep_error :
    ∀ (ps : List Property) (st : AuthSt) (e : Error),
      ps.foldlM authStep st = .error e → e = .protocolError := by
  intro ps
  induction ps with
  | nil => intro st e h; cases h
  | cons p t ih =>
    intro st e h
    rw [List.foldlM_cons] at h
    cases hs : authStep st p with
    | error e' =>
      rw [hs, exBind_err] at h
      injection h with h
      subst h
      exact authStep_error_kind st p _ hs
    | ok st₁ =>
      rw [hs, exBind_ok] at h
      exact ih st₁ e h

theorem authStep_preserves_method (p : Property) (st st' : AuthSt)
    (h : authStep st p = .ok st')
    (hb : ∀ m, p ≠ Property.authenticationMethod m) :
    st'.authentication_method = st.authentication_method := by
  cases p <;> simp only [authStep] at h <;> cases h <;>
    first
    | rfl
    | exact absurd rfl (hb _)

theorem foldlM_authStep_method :
    ∀ (ps : List Property) (st st' : AuthSt),
      (∀ m, Property.authenticationMethod m ∉ ps) →
      ps.foldlM authStep st = .ok st' →
      st'.authentication_method = st.authentication_method := by
  intro ps
  induction ps with
  | nil =>
    intro st st' _ h
    injection h with h
    subst h
    rfl
  | cons p t ih =>
    intro st st' hb h
    rw [List.foldlM_cons] at h
    obtain ⟨st₁, h1, h2⟩ := exBind_ok_inv h
    have e1 := authStep_preserves_method p st st₁ h1
      (fun m hpm => hb m (hpm ▸ List.mem_cons_self p t))
    rw [ih st₁ st' (fun m hbt => hb m (List.mem_cons_of_mem _ hbt)) h2, e1]

theorem authStep_preserves_data (p : Property) (st st' : AuthSt)
    (h : authStep st p = .ok st')
    (hb : ∀ dd, p ≠ Property.authenticationData dd) :
    st'.authentication_data = st.authentication_data := by
  cases p <;> simp only [authStep] at h <;> cases h <;>
    first
    | rfl
    | exact absurd rfl (hb _)

theorem foldlM_authStep_data :
    ∀ (ps : List Property) (st st' : AuthSt),
      (∀ dd, Property.authenticationData dd ∉ ps) →
      ps.foldlM authStep st = .ok st' →
      st'.authentication_data = st.authentication_data := by
  intro ps
  induction ps with
  | nil =>
    intro st st' _ h
    injection h with h
    subst h
    rfl
  | cons p t ih =>
    intro st st' hb h
    rw [List.foldlM_cons] at h
    obtain ⟨st₁, h1, h2⟩ := exBind_ok_inv h
    have e1 := authStep_preserves_data p st st₁ h1
      (fun dd hpd => hb dd (hpd ▸ List.mem_cons_self p t))
    rw [ih st₁ st' (fun dd hbt => hb dd (List.mem_cons_of_mem _ hbt)) h2, e1]

theorem authStep_illegal (st : AuthSt) (p : Property)
    (h : allowedAuthProp p = false) :
    authStep st p = .error .protocolError := by
  cases p <;> first
  | rfl
  | cases h

theorem authStep_legal (st : AuthSt) (p : Property)
    (h : allowedAuthProp p = true) :
    ∃ st', authStep st p = .ok st' := by
  cases p <;> first
  | exact ⟨_, rfl⟩
  | cases h

theorem foldlM_authStep_illegal :
    ∀ (ps : List Property) (st : AuthSt),
      (∃ p ∈ ps, allowedAuthProp p = false) →
      ps.foldlM authStep st = .error .protocolError := by
  intro ps
  induction ps with
  | nil =>
    intro st h
    obtain ⟨p, hp, _⟩ := h
    cases hp
  | cons p t ih =>
    intro st h
    rw [List.foldlM_cons]
    by_cases hap : allowedAuthProp p = true
    · obtain ⟨st₁, hs⟩ := authStep_legal st p hap
      rw [hs, exBind_ok]
      obtain ⟨q, hq, hqf⟩ := h
      rcases List.mem_cons.mp hq with rfl | hqt
      · rw [hap] at hqf
        cases hqf
      · exact ih st₁ ⟨q, hqt, hqf⟩
    · rw [authStep_illegal st p (by revert hap; cases allowedAuthProp p <;>
        simp), exBind_err]

theorem foldlM_authStep_legal :
    ∀ (ps : List Property) (st : AuthSt),
      (∀ p ∈ ps, allowedAuthProp p = true) →
      ∃ st', ps.foldlM authStep st = .ok st' := by
  intro ps
  induction ps with
  | nil => intro st _; exact ⟨st, rfl⟩
  | cons p t ih =>
    intro st h
    obtain ⟨st₁, hs⟩ := authStep_legal st p (h p (List.mem_cons_self p t))
    rw [List.foldlM_cons, hs, exBind_ok]
    exact ih st₁ (fun q hq => h q (List.mem_cons_of_mem _ hq))

theorem authStep_keeps_some_method (p : Property) (st st' : AuthSt)
    (h : authStep st p = .ok st')
    (hb : st.authentication_method.isSome = true) :
    st'.authentication_method.isSome = true := by
  cases p <;> simp only [authStep] at h <;> cases h <;>
    first
    | exact hb
    | rfl

theorem foldlM_authStep_keeps_some_method :
    ∀ (ps : List Property) (st st' : AuthSt),
      ps.foldlM authStep st = .ok st' →
      st.authentication_method.isSome = true →
      st'.authentication_method.isSome = true := by
  intro ps
  induction ps with
  | nil =>
    intro st st' h hm
    injection h with h
    subst h
    exact hm
  | cons p t ih =>
    intro st st' h hm
    rw [List.foldlM_cons] at h
    obtain ⟨st₁, h1, h2⟩ := exBind_ok_inv h
    exact ih st₁ st' h2 (authStep_keeps_some_method p st st₁ h1 hm)

theorem foldlM_authStep_method_some :
    ∀ (ps : List Property) (st st' : AuthSt),
      ps.foldlM authStep st = .ok st' →
      (∃ m, Property.authenticationMethod m ∈ ps) →
      st'.authentication_method.isSome = true := by
  intro ps
  induction ps with
  | nil =>
    intro st st' _ h
    obtain ⟨m, hm⟩ := h
    cases hm
  | cons p t ih =>
    intro st st' h hm
    rw [List.foldlM_cons] at h
    obtain ⟨st₁, h1, h2⟩ := exBind_ok_inv h
    obtain ⟨m, hmem⟩ := hm
    rcases List.mem_cons.mp hmem with rfl | hmt
    · simp only [authStep] at h1
      injection h1 with h1
      subst h1
      exact foldlM_authStep_keeps_some_method t _ st' h2 rfl
    · exact ih st₁ st' h2 ⟨m, hmt⟩

theorem authRead_eq (r : Rd) (b : Nat) (r₁ : Rd) (rc : ReasonCode)
    (d : PropertiesDecoder) (r₂ : Rd) (ps : List Property)
    (h1 : readByte r = .ok (b, r₁))
    (h2 : ReasonCode.tryParse b .AUTH = .ok rc)
    (h3 : PropertiesDecoder.take r₁ = .ok (d, r₂))
    (h4 : readAllProps (d.rd.limit + 1) d = .ok ps) :
    authRead r = (ps.foldlM authStep ⟨none, [], none, []⟩ >>= fun st =>
      match st.authentication_method with
      | some m =>
        .ok (⟨rc, ⟨m, st.authentication_data⟩, st.reason_string,
              st.user_properties⟩, r₂)
      | none => .error .protocolError) := by
  unfold authRead
  rw [h1, exBind_ok]
  dsimp only
  rw [h2, exBind_ok, h3, exBind_ok]
  dsimp only
  rw [propLoop_eq_foldlM authStep (d.rd.limit + 1) d ps h4]

/-- C6.  Auth framing, for any Auth body whose reason code parses and
whose properties region parses into the property list `ps`: if `ps`
holds no authentication method, the decode fails with the protocol
violation; if `ps` holds any property kind outside
{method, data, reason string, user property}, the decode fails with the
protocol violation; and if the method is present, every property is in
the allowed set and no authentication data appears, the decode succeeds
with the empty (default) authentication data. -/
theorem claim6_auth_framing :
    ∀ (r : Rd) (b : Nat) (r₁ : Rd) (rc : ReasonCode)
      (d : PropertiesDecoder) (r₂ : Rd) (ps : List Property),
      readByte r = .ok (b, r₁) →
      ReasonCode.tryParse b .AUTH = .ok rc →
      PropertiesDecoder.take r₁ = .ok (d, r₂) →
      readAllProps (d.rd.limit + 1) d = .ok ps →
      ((∀ m, Property.authenticationMethod m ∉ ps) →
        authRead r = .error .protocolError) ∧
      ((∃ p ∈ ps, allowedAuthProp p = false) →
        authRead r = .error .protocolError) ∧
      ((∃ m, Property.authenticationMethod m ∈ ps) →
       (∀ dd, Property.authenticationData dd ∉ ps) →
       (∀ p ∈ ps, allowedAuthProp p = true) →
       ∃ a r', authRead r = .ok (a, r') ∧ a.authentication.data = []) := by
  intro r b r₁ rc d r₂ ps h1 h2 h3 h4
  have hE := authRead_eq r b r₁ rc d r₂ ps h1 h2 h3 h4
  refine ⟨?_, ?_, ?_⟩
  · intro hm
    rw [hE]
    cases hf : ps.foldlM authStep (⟨none, [], none, []⟩ : AuthSt) with
    | error e =>
      rw [exBind_err, foldlM_authStep_error ps _ e hf]
    | ok st' =>
      rw [exBind_ok]
      have hnone := foldlM_authStep_method ps _ st' hm hf
      rw [show st'.authentication_method = none from hnone]
  · intro hill
    rw [hE, foldlM_authStep_illegal ps _ hill, exBind_err]
  · intro hm hd hall
    obtain ⟨st', hf⟩ := foldlM_authStep_legal ps _ hall
    rw [hE, hf, exBind_ok]
    obtain ⟨m, hm'⟩ := Option.isSome_iff_exists.mp
      (foldlM_authStep_method_some ps _ st' hf hm)
    rw [hm']
    have hdata : st'.authentication_data = [] :=
      foldlM_authStep_data ps _ st' hd hf
    exact ⟨_, r₂, rfl, hdata⟩

/-- Witness for C6: a concrete Auth body — reason code Success and a
4-byte region holding one authentication-method property — decodes
successfully with empty authentication data. -/
theorem claim6_auth_framing_witness :
    ∃ a r', authRead ⟨[0, 4, 21, 0, 1, 65], 6⟩ = .ok (a, r') ∧
      a.authentication.data = [] := by
  refine (claim6_auth_framing ⟨[0, 4, 21, 0, 1, 65], 6⟩ 0
    ⟨[4, 21, 0, 1, 65], 5⟩ .success ⟨⟨[21, 0, 1, 65], 4⟩, []⟩ ⟨[], 0⟩
    [.authenticationMethod [65]] (by decide) (by decide) (by decide)
    (by decide)).2.2 ⟨[65], by decide⟩ ?_ (by decide)
  intro dd h
  simp at h

theorem chunkEncode_inv {s bs : List Nat} (h : chunkEncode s = .ok bs) :
    s.length < 65536 ∧ bs = u16bytes s.length ++ s := by
  unfold chunkEncode at h
  by_cases hs : s.length < 65536
  · rw [if_pos hs] at h
    injection h with h
    exact ⟨hs, h.symm⟩
  · rw [if_neg hs] at h
    cases h

/-- C7.  The conditional packet identifier of Publish.  Encoding: a
Publish with a quality of service other than at-most-once and no packet
identifier fails with the protocol violation; when one is present, the
output is the topic name (2-byte length prefix and bytes) immediately
followed by the 2-byte identifier; at at-most-once no identifier is
written — the topic name is immediately followed by the
variable-length-integer byte count of the properties buffer, then that
buffer and the payload.  Decoding: at-most-once yields an absent
identifier without reading one; any other quality of service reads a
2-byte identifier right after the topic name and stores it. -/
theorem claim7_publish_packet_identifier :
    (∀ p : Publish, p.qos ≠ QoS.atMostOnce → p.packet_identifier = none →
      p.topic_name.length < 65536 →
      publishWrite p = .error .protocolError) ∧
    (∀ (p : Publish) (n : Nat) (bs : List Nat),
      publishWrite p = .ok (n, bs) → p.qos ≠ QoS.atMostOnce →
      ∃ i rest, p.packet_identifier = some i ∧
        bs = (u16bytes p.topic_name.length ++ p.topic_name) ++
          u16bytes i ++ rest) ∧
    (∀ (r : Rd) (dup ret : Bool) (rem : Nat) (pkt : Publish),
      publishRead r dup QoS.atMostOnce ret rem = .ok pkt →
      pkt.packet_identifier = none) ∧
    (∀ (r : Rd) (dup : Bool) (qos : QoS) (ret : Bool) (rem : Nat)
       (pkt : Publish),
      publishRead r dup qos ret rem = .ok pkt → qos ≠ QoS.atMostOnce →
      ∃ t r₁ i r₂,
        readChunk (⟨r.data.take (min rem r.limit), rem⟩ : Rd) =
          .ok (t, r₁) ∧
        readU16 r₁ = .ok (i, r₂) ∧
        pkt.topic_name = t ∧ pkt.packet_identifier = some i) ∧
    (∀ (p : Publish) (n : Nat) (bs : List Nat),
      publishWrite p = .ok (n, bs) → p.qos = QoS.atMostOnce →
      ∃ props lenB, vbiEncode props.length = .ok lenB ∧
        bs = (u16bytes p.topic_name.length ++ p.topic_name) ++
          lenB ++ props ++ p.message) := by
  refine ⟨?_, ?_, ?_, ?_, ?_⟩
  · intro p hq hpid ht
    unfold publishWrite
    have hc : chunkEncode p.topic_name =
        .ok (u16bytes p.topic_name.length ++ p.topic_name) := by
      unfold chunkEncode
      rw [if_pos ht]
    rw [hc, exBind_ok, if_pos hq, hpid]
    dsimp only
    rw [exBind_err]
  · intro p n bs h hq
    unfold publishWrite at h
    obtain ⟨tB, htB, h⟩ := exBind_ok_inv h
    obtain ⟨hlen, htb⟩ := chunkEncode_inv htB
    rw [if_pos hq] at h
    cases hpid : p.packet_identifier with
    | none =>
      rw [hpid] at h
      dsimp only at h
      rw [exBind_err] at h
      cases h
    | some i =>
      rw [hpid] at h
      dsimp only at h
      rw [exBind_ok] at h
      obtain ⟨⟨n1, b1⟩, h1, h⟩ := exBind_ok_inv h
      dsimp only at h
      obtain ⟨⟨n2, b2⟩, h2, h⟩ := exBind_ok_inv h
      dsimp only at h
      obtain ⟨⟨n3, b3⟩, h3, h⟩ := exBind_ok_inv h
      dsimp only at h
      obtain ⟨⟨n4, b4⟩, h4, h⟩ := exBind_ok_inv h
      dsimp only at h
      obtain ⟨⟨n5, b5⟩, h5, h⟩ := exBind_ok_inv h
      dsimp only at h
      obtain ⟨⟨n6, b6⟩, h6, h⟩ := exBind_ok_inv h
      dsimp only at h
      obtain ⟨⟨n7, b7⟩, h7, h⟩ := exBind_ok_inv h
      dsimp only at h
      obtain ⟨⟨n8, b8⟩, h8, h⟩ := exBind_ok_inv h
      dsimp only at h
      obtain ⟨lenB, hlenB, h⟩ := exBind_ok_inv h
      injection h with h
      injection h with hn hbs
      refine ⟨i, lenB ++ ((b1 ++ b2 ++ b3 ++ b4 ++ b5 ++ b6 ++ b7 ++ b8)
        ++ p.message), rfl, ?_⟩
      rw [← hbs, htb]
      simp [List.append_assoc]
  · intro r dup ret rem pkt h
    unfold publishRead at h
    obtain ⟨⟨topic, r₁⟩, ht, h⟩ := exBind_ok_inv h
    dsimp only at h
    rw [if_neg (by simp)] at h
    rw [exBind_ok] at h
    obtain ⟨⟨d, rAfter⟩, htk, h⟩ := exBind_ok_inv h
    dsimp only at h
    obtain ⟨st, hst, h⟩ := exBind_ok_inv h
    injection h with h
    subst h
    rfl
  · intro r dup qos ret rem pkt h hq
    unfold publishRead at h
    obtain ⟨⟨topic, r₁⟩, ht, h⟩ := exBind_ok_inv h
    dsimp only at h
    rw [if_pos hq] at h
    obtain ⟨⟨i, r₂⟩, hi, h⟩ := exBind_ok_inv h
    dsimp only at h
    rw [exBind_ok] at h
    dsimp only at h
    obtain ⟨⟨d, rAfter⟩, htk, h⟩ := exBind_ok_inv h
    dsimp only at h
    obtain ⟨st, hst, h⟩ := exBind_ok_inv h
    injection h with h
    subst h
    exact ⟨topic, r₁, i, r₂, ht, hi, rfl, rfl⟩
  · intro p n bs h hq
    unfold publishWrite at h
    obtain ⟨tB, htB, h⟩ := exBind_ok_inv h
    obtain ⟨hlen, htb⟩ := chunkEncode_inv htB
    rw [if_neg (by simp [hq])] at h
    dsimp only at h
    rw [exBind_ok] at h
    obtain ⟨⟨n1, b1⟩, h1, h⟩ := exBind_ok_inv h
    dsimp only at h
    obtain ⟨⟨n2, b2⟩, h2, h⟩ := exBind_ok_inv h
    dsimp only at h
    obtain ⟨⟨n3, b3⟩, h3, h⟩ := exBind_ok_inv h
    dsimp only at h
    obtain ⟨⟨n4, b4⟩, h4, h⟩ := exBind_ok_inv h
    dsimp only at h
    obtain ⟨⟨n5, b5⟩, h5, h⟩ := exBind_ok_inv h
    dsimp only at h
    obtain ⟨⟨n6, b6⟩, h6, h⟩ := exBind_ok_inv h
    dsimp only at h
    obtain ⟨⟨n7, b7⟩, h7, h⟩ := exBind_ok_inv h
    dsimp only at h
    obtain ⟨⟨n8, b8⟩, h8, h⟩ := exBind_ok_inv h
    dsimp only at h
    obtain ⟨lenB, hlenB, h⟩ := exBind_ok_inv h
    injection h with h
    injection h with hn hbs
    refine ⟨b1 ++ b2 ++ b3 ++ b4 ++ b5 ++ b6 ++ b7 ++ b8, lenB, hlenB, ?_⟩
    rw [← hbs, htb]
    simp [List.append_assoc]

/-- Witness for C7: a Publish at quality of service at-least-once with
no packet identifier fails to encode with the protocol violation, and
one at at-most-once encodes with the properties-length byte directly
after the (empty) topic name — no identifier bytes in between. -/
theorem claim7_publish_packet_identifier_witness :
    publishWrite ⟨false, QoS.atLeastOnce, false, [], none, false, none,
      none, none, none, [], [], [], []⟩ = .error .protocolError ∧
    (∃ props lenB, vbiEncode props.length = .ok lenB ∧
      [0, 0, 3, 3, 0, 0, 7] =
        (u16bytes ([] : List Nat).length ++ ([] : List Nat)) ++
          lenB ++ props ++ [7]) := by
  constructor
  · exact claim7_publish_packet_identifier.1
      ⟨false, QoS.atLeastOnce, false, [], none, false, none, none, none,
       none, [], [], [], []⟩ (by decide) rfl (by decide)
  · exact claim7_publish_packet_identifier.2.2.2.2
      ⟨false, QoS.atMostOnce, false, [], none, false, none, none, none,
       none, [], [], [], [7]⟩ 7 [0, 0, 3, 3, 0, 0, 7] (by decide) rfl

/-- C9.  The bounded properties cursor: (1) `take` reads the declared
byte count and bounds the cursor to exactly that many following bytes,
handing the bytes past the region back untouched; (2) every successful
`read` advances only within the cursor's own bounded view — it consumes
`k` bytes with `k` no larger than either the remaining limit or the
remaining in-region data, so no property decode ever consumes a byte
beyond the declared region length — and consumes at least one byte;
(3) `has_properties` holds exactly while unread declared bytes remain;
(4) reading with the in-region bytes exhausted but budget left fails
with the stream error and yields no property; (5) concretely, a
property id whose payload would extend past the region end (here a
message-expiry-interval id ending the region) fails with the stream
error. -/
theorem claim9_properties_region_bounded :
    (∀ r d rest, PropertiesDecoder.take r = .ok (d, rest) →
      ∃ len r', vbiDecode r = .ok (len, r') ∧
        d.rd.limit = len ∧
        d.rd.data = r'.data.take (min len r'.limit) ∧
        d.rd.data.length ≤ len ∧
        d.marked = [] ∧
        rest.data = r'.data.drop len ∧ rest.limit = r'.limit - len) ∧
    (∀ d p d', PropertiesDecoder.read d = .ok (p, d') →
      d.rd.adv d'.rd ∧ d'.rd.limit < d.rd.limit) ∧
    (∀ d : PropertiesDecoder, d.hasProperties = true ↔ 0 < d.rd.limit) ∧
    (∀ d : PropertiesDecoder, d.rd.data = [] → 0 < d.rd.limit →
      PropertiesDecoder.read d = .error .ioError) ∧
    (∀ marked lim, 2 ≤ lim →
      PropertyId.messageExpiryInterval ∉ marked →
      PropertiesDecoder.read ⟨⟨[2], lim⟩, marked⟩ = .error .ioError) := by
  refine ⟨?_, ?_, ?_, ?_, ?_⟩
  · intro r d rest h
    unfold PropertiesDecoder.take at h
    obtain ⟨⟨len, r'⟩, h1, h2⟩ := exBind_ok_inv h
    injection h2 with h2
    injection h2 with hd hrest
    subst hd
    subst hrest
    refine ⟨len, r', h1, rfl, rfl, ?_, rfl, rfl, rfl⟩
    simp [List.length_take]
  · intro d p d' h
    unfold PropertiesDecoder.read at h
    obtain ⟨⟨id, rd₁⟩, h1, h⟩ := exBind_ok_inv h
    dsimp only at h
    by_cases hc : id ≠ PropertyId.userProperty ∧ id ∈ d.marked
    · rw [if_pos hc] at h
      cases h
    · rw [if_neg hc] at h
      obtain ⟨⟨p', rd₂⟩, h2, h3⟩ := exBind_ok_inv h
      injection h3 with h3
      injection h3 with hp hd'
      subst hp
      subst hd'
      obtain ⟨ha1, hl1⟩ := advancesS_decodeId d.rd id rd₁ h1
      have ha2 := advances_readPropertyValue id rd₁ p' rd₂ h2
      exact ⟨Rd.adv_trans ha1 ha2,
        Nat.lt_of_le_of_lt (Rd.adv_limit_le ha2) hl1⟩
  · intro d
    simp [PropertiesDecoder.hasProperties]
  · intro d hdata hlim
    obtain ⟨⟨data, lim⟩, marked⟩ := d
    simp only at hdata hlim
    subst hdata
    obtain ⟨l, rfl⟩ : ∃ l, lim = l + 1 := ⟨lim - 1, by omega⟩
    rfl
  · intro marked lim hlim hm
    obtain ⟨l, rfl⟩ : ∃ l, lim = l + 2 := ⟨lim - 2, by omega⟩
    have h : PropertiesDecoder.read ⟨⟨[2], l + 2⟩, marked⟩ =
        if ¬PropertyId.messageExpiryInterval = PropertyId.userProperty ∧
            PropertyId.messageExpiryInterval ∈ marked then
          Except.error Error.protocolError
        else Except.error Error.ioError := rfl
    rw [h, if_neg (by simp [hm])]

/-- Witness for C9: the bounded-read facts applied to a concrete
3-byte region holding a single receive-maximum property. -/
theorem claim9_properties_region_bounded_witness :
    (⟨[33, 0, 5], 3⟩ : Rd).adv ⟨[], 0⟩ ∧ (⟨[], 0⟩ : Rd).limit < 3 :=
  claim9_properties_region_bounded.2.1 ⟨⟨[33, 0, 5], 3⟩, []⟩
    (.receiveMaximum 5) ⟨⟨[], 0⟩, [.receiveMaximum]⟩ rfl

/-- C3.  Default elision, both directions.  Encoding any property whose
value equals that property's default writes no bytes and reports a byte
count of 0.  For decoding: running the `Publish::read` properties loop
over a region whose property list contains no payload-format-indicator
leaves the payload-format-indicator state — initialised to the default
— untouched; concretely, a Publish body whose properties region holds
only a message-expiry-interval decodes with `payload_format_indicator`
at its default `false`. -/
theorem claim3_default_elision :
    (∀ p : Property, p.isDefaultValued = true →
      Property.encode p = .ok (0, [])) ∧
    (∀ fuel d ps st st',
      readAllProps fuel d = .ok ps →
      (∀ b, Property.payloadFormatIndicator b ∉ ps) →
      propLoop pubStep fuel d st = .ok st' →
      st'.payload_format_indicator = st.payload_format_indicator) ∧
    publishRead ⟨[0, 0, 5, 2, 0, 0, 0, 17], 8⟩ false .atMostOnce false 8 =
      .ok ⟨false, .atMostOnce, false, [], none, false, some 17, none, none,
           none, [], [], [], []⟩ := by
  refine ⟨?_, ?_, rfl⟩
  · intro p h
    cases p <;>
      simp_all [Property.isDefaultValued, Property.encode,
        DEFAULT_PAYLOAD_FORMAT_INDICATOR, DEFAULT_SESSION_EXPIRY_INTERVAL,
        DEFAULT_REQUEST_PROBLEM_INFORMATION, DEFAULT_WILL_DELAY_INTERVAL,
        DEFAULT_REQUEST_RESPONSE_INFORMATION, DEFAULT_RECEIVE_MAXIMUM,
        DEFAULT_TOPIC_ALIAS_MAXIMUM, DEFAULT_MAXIMUM_QOS,
        DEFAULT_RETAIN_AVAILABLE, DEFAULT_WILCARD_SUBSCRIPTION_AVAILABLE,
        DEFAULT_SHARED_SUBSCRIPTION_AVAILABLE]
  · intro fuel d ps st st' h1 h2 h3
    rw [propLoop_eq_foldlM pubStep fuel d ps h1 st] at h3
    exact foldlM_pubStep_pfi ps st st' h2 h3

/-- Witness for C3 at concrete inputs: the payload-format-indicator at
its default `false` encodes to zero bytes, and a one-element property
list without it leaves the loop state's indicator alone. -/
theorem claim3_default_elision_witness :
    Property.encode (.payloadFormatIndicator false) = .ok (0, []) ∧
    Property.encode (.receiveMaximum 65535) = .ok (0, []) :=
  ⟨claim3_default_elision.1 (.payloadFormatIndicator false) rfl,
   claim3_default_elision.1 (.receiveMaximum 65535) rfl⟩

/-- C1.  The claim is false of the code: `PubAck::write` emits the
2-byte shortened form when `n_bytes == 2 && reason_code != Success`
(`puback.rs:39`) — the comparison is inverted with respect to the
claim.  A PubAck with reason code Success and no optional fields
encodes to the 4-byte full form `[0,1,0,0]`, while a PubAck carrying
reason code QuotaExceeded and no optional fields encodes to the bare
2-byte identifier, silently dropping its reason code.  (The decoding
half of the claim does hold: a shortened 2-byte body yields Success
with no reason string and no user properties.) -/
theorem claim1_puback_shortened_condition_inverted :
    pubAckWrite ⟨1, ReasonCode.success, none, []⟩ = .ok (4, [0, 1, 0, 0]) ∧
    pubAckWrite ⟨1, ReasonCode.quotaExceeded, none, []⟩ = .ok (2, [0, 1]) ∧
    pubAckRead ⟨[0, 1], 2⟩ true =
      .ok (⟨1, ReasonCode.success, none, []⟩, ⟨[], 0⟩) := by
  exact ⟨rfl, rfl, rfl⟩

/-- C2.  Round-trip fails on the code for two independent reasons.
First, a PubAck with a non-Success reason code and no optional fields
encodes (because of the inverted shortened-form condition of
`puback.rs:39`) to the bare 2-byte identifier, which — decoded with the
shortened indication matching that length — comes back as a Success
PubAck, not the original.  Second, a Publish carrying two subscription
identifiers encodes fine but its decode trips the duplicate check of
`PropertiesDecoder::read` (`property.rs:70`, which exempts only
`UserProperty`), exactly as in the repository's own 124-byte publish
test vector, whose four subscription-identifier entries make
`publish::unit::decode` fail. -/
theorem claim2_roundtrip_violated :
    pubAckWrite ⟨1, ReasonCode.quotaExceeded, none, []⟩ = .ok (2, [0, 1]) ∧
    pubAckRead ⟨[0, 1], 2⟩ true =
      .ok (⟨1, ReasonCode.success, none, []⟩, ⟨[], 0⟩) ∧
    (⟨1, ReasonCode.success, none, []⟩ : PubAck) ≠
      ⟨1, ReasonCode.quotaExceeded, none, []⟩ ∧
    publishWrite ⟨false, QoS.atMostOnce, false, [], none, false, none,
        none, none, none, [], [34, 32], [], []⟩ =
      .ok (10, [0, 0, 7, 11, 34, 11, 32, 3, 0, 0]) ∧
    publishRead ⟨[0, 0, 7, 11, 34, 11, 32, 3, 0, 0], 10⟩ false
        QoS.atMostOnce false 10 = .error .protocolError := by
  refine ⟨rfl, rfl, by decide, rfl, by decide⟩

/-- C10.  `PubAck::read` takes the shortened-form decision from its
caller: with `shortened = false` it unconditionally goes on to read a
reason code and a properties region, so a source holding only the
2-byte identifier ends in a stream (end-of-stream) failure — whatever
the two identifier bytes are — while the same two bytes with
`shortened = true` produce the Success-valued PubAck. -/
theorem claim10_puback_shortened_is_callers_job (b1 b0 : Nat) :
    pubAckRead ⟨[b1, b0], 2⟩ false = .error .ioError ∧
    pubAckRead ⟨[b1, b0], 2⟩ true =
      .ok (⟨b1 * 256 + b0, ReasonCode.success, none, []⟩, ⟨[], 0⟩) := by
  exact ⟨rfl, rfl⟩

/-- C5.  `ReceiveMaximum` of zero fails in both directions with the
distinguished malformed-value error: encoding
`Property::ReceiveMaximum(0)` fails with `MalformedPacket`
(`property.rs:267`), and a properties cursor about to read id 33
followed by the 2-byte value 0 — the id not having been seen before —
fails with `MalformedPacket` (`property.rs:142`); that error kind is
distinct from the generic protocol violation. -/
theorem claim5_receive_maximum_zero (marked : List PropertyId)
    (tail : List Nat) (lim : Nat) (hlim : 3 ≤ lim)
    (hm : PropertyId.receiveMaximum ∉ marked) :
    Property.encode (.receiveMaximum 0) = .error .malformedPacket ∧
    PropertiesDecoder.read ⟨⟨33 :: 0 :: 0 :: tail, lim⟩, marked⟩ =
      .error .malformedPacket ∧
    Error.malformedPacket ≠ Error.protocolError := by
  obtain ⟨l, rfl⟩ : ∃ l, lim = l + 3 := ⟨lim - 3, by omega⟩
  refine ⟨rfl, ?_, by decide⟩
  have h : PropertiesDecoder.read ⟨⟨33 :: 0 :: 0 :: tail, l + 3⟩, marked⟩ =
      if ¬PropertyId.receiveMaximum = PropertyId.userProperty ∧
          PropertyId.receiveMaximum ∈ marked then
        Except.error Error.protocolError
      else Except.error Error.malformedPacket := rfl
  rw [h, if_neg (by simp [hm])]

/-- Witness for C5 at concrete inputs. -/
theorem claim5_receive_maximum_zero_witness :
    Property.encode (.receiveMaximum 0) = .error .malformedPacket ∧
    PropertiesDecoder.read ⟨⟨[33, 0, 0, 9], 7⟩, [.reasonString]⟩ =
      .error .malformedPacket := by
  have h := claim5_receive_maximum_zero [.reasonString] [9] 7
    (by decide) (by decide)
  exact ⟨h.1, h.2.1⟩

/-- C8.  `SubscriptionIdentifier` of zero fails in both directions with
the general protocol violation: encoding
`Property::SubscriptionIdentifier(0)` fails with `ProtocolError`
(`property.rs:199`), and a properties cursor about to read id 11
followed by the variable-length-integer value 0 — the id not having
been seen before — fails with `ProtocolError` (`property.rs:96`). -/
theorem claim8_subscription_identifier_zero (marked : List PropertyId)
    (tail : List Nat) (lim : Nat) (hlim : 2 ≤ lim)
    (hm : PropertyId.subscriptionIdentifier ∉ marked) :
    Property.encode (.subscriptionIdentifier 0) = .error .protocolError ∧
    PropertiesDecoder.read ⟨⟨11 :: 0 :: tail, lim⟩, marked⟩ =
      .error .protocolError := by
  obtain ⟨l, rfl⟩ : ∃ l, lim = l + 2 := ⟨lim - 2, by omega⟩
  refine ⟨rfl, ?_⟩
  have h : PropertiesDecoder.read ⟨⟨11 :: 0 :: tail, l + 2⟩, marked⟩ =
      if ¬PropertyId.subscriptionIdentifier = PropertyId.userProperty ∧
          PropertyId.subscriptionIdentifier ∈ marked then
        Except.error Error.protocolError
      else Except.error Error.protocolError := rfl
  rw [h, if_neg (by simp [hm])]

/-- Witness for C8 at concrete inputs. -/
theorem claim8_subscription_identifier_zero_witness :
    Property.encode (.subscriptionIdentifier 0) = .error .protocolError ∧
    PropertiesDecoder.read ⟨⟨[11, 0, 5], 4⟩, [.topicAlias]⟩ =
      .error .protocolError := by
  exact claim8_subscription_identifier_zero [.topicAlias] [5] 4
    (by decide) (by decide)

end SageMqtt
